import Mathlib

/-!
Shallow embedding of the dnsdist packet cache (`pdns/dnsdist-cache.cc`).

Times (`time_t`) are modelled as `Int`, byte strings as `List Nat`
(each element a byte value), and each shard's `std::unordered_map` as an
association list over the 32-bit key (a `Nat` reduced modulo 2^32 by the
hash).  Locks always succeed in this sequential model, so the deferred
paths are never taken.  Helper code living outside `dnsdist-cache.cc`
(DNSName comparison, the burtle hash, `getDNSPacketMinTTL`,
`ageDNSPacket`) is modelled from the spec, as marked on each definition.
-/

namespace PdnsCache

/-- Modelled from the spec: DNSName case-insensitive handling.  Maps an
ASCII upper-case byte to its lower-case counterpart, other bytes kept. -/
def lowerByte (b : Nat) : Nat :=
  if 65 ≤ b ∧ b ≤ 90 then b + 32 else b

/-- Modelled from the spec: `DNSName::operator==` compares names
case-insensitively at the DNS-name level.  Names are wire-format byte
lists; equality after lower-casing every byte. -/
def dnsNameEq (a b : List Nat) : Bool :=
  a.map lowerByte == b.map lowerByte

/-- One cached response (`CacheValue` in `dnsdist-cache.hh`). -/
structure CacheValue where
  qname : List Nat
  qtype : Nat
  qclass : Nat
  len : Nat
  validity : Int
  added : Int
  tcp : Bool
  value : List Nat
deriving DecidableEq

/-- One shard: hash map plus its entry counter. -/
structure CacheShard where
  d_map : List (Nat × CacheValue)
  d_entriesCount : Nat
deriving DecidableEq

/-- The packet cache object: configuration, shards and counters. -/
structure PacketCache where
  d_maxEntries : Nat
  d_shardCount : Nat
  d_maxTTL : Nat
  d_tempFailureTTL : Nat
  d_minTTL : Nat
  d_staleTTL : Nat
  d_dontAge : Bool
  d_deferrableInsertLock : Bool
  d_shards : List CacheShard
  d_expungeIndex : Nat
  d_hits : Nat
  d_misses : Nat
  d_insertCollisions : Nat
  d_lookupCollisions : Nat
  d_ttlTooShorts : Nat
  d_deferredInserts : Nat
  d_deferredLookups : Nat
deriving DecidableEq

/-- The query descriptor used by `get` (the parts of `DNSQuestion` the
cache reads): wire-format qname (`toDNSString`), qtype, qclass, the
transport flag and the raw query packet bytes (`dh` / `len`). -/
structure DNSQuestion where
  qname : List Nat
  qtype : Nat
  qclass : Nat
  tcp : Bool
  packet : List Nat
deriving DecidableEq

/-- The constructor: shards start empty, counters at zero. -/
def mkCache (maxEntries maxTTL minTTL tempFailureTTL staleTTL : Nat)
    (dontAge : Bool) (shards : Nat) (deferrableInsertLock : Bool) : PacketCache :=
  { d_maxEntries := maxEntries
    d_shardCount := shards
    d_maxTTL := maxTTL
    d_tempFailureTTL := tempFailureTTL
    d_minTTL := minTTL
    d_staleTTL := staleTTL
    d_dontAge := dontAge
    d_deferrableInsertLock := deferrableInsertLock
    d_shards := List.replicate shards ⟨[], 0⟩
    d_expungeIndex := 0
    d_hits := 0
    d_misses := 0
    d_insertCollisions := 0
    d_lookupCollisions := 0
    d_ttlTooShorts := 0
    d_deferredInserts := 0
    d_deferredLookups := 0 }

/-- `DNSDistPacketCache::cachedValueMatches`: false on any attribute
mismatch (qname compared case-insensitively), true otherwise. -/
def cachedValueMatches (cachedValue : CacheValue) (qname : List Nat)
    (qtype qclass : Nat) (tcp : Bool) : Bool :=
  if cachedValue.tcp != tcp || cachedValue.qtype != qtype || cachedValue.qclass != qclass
      || !(dnsNameEq cachedValue.qname qname) then
    false
  else
    true

/-- `DNSDistPacketCache::getShardIndex`: key modulo the shard count. -/
def getShardIndex (c : PacketCache) (key : Nat) : Nat :=
  key % c.d_shardCount

/-- `DNSDistPacketCache::getSize`: sum of the per-shard entry counters. -/
def getSize (c : PacketCache) : Nat :=
  (c.d_shards.map (fun sh => sh.d_entriesCount)).sum

/-- Modelled from the spec: the burtle hash (Jenkins one-at-a-time
style).  The exact mixing function is not given by the spec; it is
modelled as a deterministic byte-oriented 32-bit fold, which is all the
claims rely on. -/
def burtle (bytes : List Nat) (start : Nat) : Nat :=
  bytes.foldl (fun h b => (h * 131 + b) % 4294967296) start

/-- `DNSDistPacketCache::getKey`: hash of the header minus the query ID,
the lower-cased qname, any trailing bytes after the question, and the
TCP flag.  `none` models the `std::range_error` thrown on a packet
shorter than the header or shorter than header + consumed qname. -/
def getKey (qname : List Nat) (consumed : Nat) (packet : List Nat) (tcp : Bool) :
    Option Nat :=
  if packet.length < 12 then none
  else
    let r := burtle ((packet.drop 2).take 10) 0
    let r := burtle (qname.map lowerByte) r
    if packet.length < 12 + consumed then none
    else
      let r := if 12 + consumed < packet.length then burtle (packet.drop (12 + consumed)) r else r
      some (burtle [if tcp then 1 else 0] r)

/-- Reads a big-endian 16-bit integer at `pos`; `none` out of bounds. -/
def readU16 (p : List Nat) (pos : Nat) : Option Nat :=
  match p[pos]?, p[pos + 1]? with
  | some a, some b => some (a * 256 + b)
  | _, _ => none

/-- Modelled from the spec: skipping a wire-format DNS name starting at
`pos` (labels until a zero byte, or a two-byte compression pointer);
returns the position just past the name, `none` on a malformed name. -/
def skipName (p : List Nat) : Nat → Nat → Option Nat
  | _, 0 => none
  | pos, fuel + 1 =>
    match p[pos]? with
    | none => none
    | some b =>
      if b = 0 then some (pos + 1)
      else if 192 ≤ b then some (pos + 2)
      else skipName p (pos + 1 + b) fuel

/-- Modelled from the spec: skipping `n` question-section entries
(name + qtype + qclass) starting at `pos`. -/
def skipQuestions (p : List Nat) : Nat → Nat → Option Nat
  | pos, 0 => some pos
  | pos, n + 1 =>
    match skipName p pos (p.length + 1) with
    | none => none
    | some q =>
      if q + 4 ≤ p.length then skipQuestions p (q + 4) n else none

/-- Modelled from the spec: walking `n` resource records starting at
`pos`, collecting the byte offset of every record's TTL field (the TTL
sits 4 bytes past the record name, after type and class).  When
`skipOPT` is set the OPT pseudo-record (type 41) contributes no offset,
matching the aging rule; the walk still continues past it.  `none` on a
record that cannot be walked to completion. -/
def rrTTLWalk (p : List Nat) (skipOPT : Bool) : Nat → Nat → Option (List Nat)
  | _, 0 => some []
  | pos, n + 1 =>
    match skipName p pos (p.length + 1) with
    | none => none
    | some q =>
      match readU16 p q, readU16 p (q + 8) with
      | some ty, some rdlen =>
        if q + 10 + rdlen ≤ p.length then
          match rrTTLWalk p skipOPT (q + 10 + rdlen) n with
          | none => none
          | some rest => if skipOPT ∧ ty = 41 then some rest else some ((q + 4) :: rest)
        else none
      | _, _ => none

/-- Modelled from the spec: the full TTL-offset walk of a response
packet — skip the header, the declared questions, then every RR of the
answer, authority and additional sections. -/
def ttlWalk (p : List Nat) (skipOPT : Bool) : Option (List Nat) :=
  if p.length < 12 then none
  else
    match skipQuestions p 12 (p.getD 4 0 * 256 + p.getD 5 0) with
    | none => none
    | some pos =>
      rrTTLWalk p skipOPT pos
        ((p.getD 6 0 * 256 + p.getD 7 0) + (p.getD 8 0 * 256 + p.getD 9 0)
          + (p.getD 10 0 * 256 + p.getD 11 0))

/-- TTL-field offsets used by aging: empty when the walk fails. -/
def ttlOffsets (p : List Nat) : List Nat :=
  (ttlWalk p true).getD []

/-- Reads the big-endian 32-bit TTL at offset `o`. -/
def readTTLAt (p : List Nat) (o : Nat) : Nat :=
  p.getD o 0 * 16777216 + p.getD (o + 1) 0 * 65536 + p.getD (o + 2) 0 * 256 + p.getD (o + 3) 0

/-- Writes the big-endian 32-bit value `t` at offset `o`. -/
def writeTTLAt (p : List Nat) (o t : Nat) : List Nat :=
  (((p.set o (t / 16777216 % 256)).set (o + 1) (t / 65536 % 256)).set
      (o + 2) (t / 256 % 256)).set (o + 3) (t % 256)

/-- Modelled from the spec: `ageDNSPacket` subtracts `seconds` from
every RR TTL in place, clamping at zero (`Nat` subtraction), leaving the
OPT pseudo-record alone; a packet that cannot be walked is left as is. -/
def ageDNSPacket (p : List Nat) (seconds : Nat) : List Nat :=
  (ttlOffsets p).foldl (fun acc o => writeTTLAt acc o (readTTLAt p o - seconds)) p

/-- Modelled from the spec: `getDNSPacketMinTTL` walks every RR of the
three non-question sections and returns the minimum TTL observed, with
unsigned-32-max as the sentinel for "no TTL found" and for malformed
packets. -/
def getMinTTL (p : List Nat) : Nat :=
  match ttlWalk p false with
  | none => 4294967295
  | some os => os.foldl (fun m o => min m (readTTLAt p o)) 4294967295

/-- Overwriting the entry stored at `key` (the `value = newValue`
assignment through the iterator). -/
def replaceEntry (map : List (Nat × CacheValue)) (key : Nat) (newValue : CacheValue) :
    List (Nat × CacheValue) :=
  map.map (fun kv => if kv.1 = key then (key, newValue) else kv)

/-- `DNSDistPacketCache::insertLocked`: re-check the shard capacity,
insert-or-get, and on an existing entry either count a collision (live
entry, attribute mismatch), keep the longer-lived entry, or overwrite.
Returns the updated shard and whether `insertCollisions` was bumped. -/
def insertLocked (maxEntries shardCount : Nat) (shard : CacheShard) (key : Nat)
    (qname : List Nat) (qtype qclass : Nat) (tcp : Bool) (newValue : CacheValue)
    (now newValidity : Int) : CacheShard × Bool :=
  if maxEntries / shardCount ≤ shard.d_map.length then (shard, false)
  else
    match shard.d_map.lookup key with
    | none =>
      ({ d_map := shard.d_map ++ [(key, newValue)],
         d_entriesCount := shard.d_entriesCount + 1 }, false)
    | some value =>
      if ¬ value.validity ≤ now ∧ cachedValueMatches value qname qtype qclass tcp = false then
        (shard, true)
      else if newValidity ≤ value.validity then (shard, false)
      else ({ shard with d_map := replaceEntry shard.d_map key newValue }, false)

/-- The `CacheValue` built by `insert` before taking the lock. -/
def mkCacheValue (qname : List Nat) (qtype qclass : Nat) (response : List Nat)
    (tcp : Bool) (now newValidity : Int) : CacheValue :=
  { qname := qname, qtype := qtype, qclass := qclass, len := response.length,
    validity := newValidity, added := now, tcp := tcp, value := response }

/-- The tail of `insert` once the effective TTL is known: shard pick,
capacity pre-check, value construction and the locked insert (the lock
always succeeds in this sequential model, so the deferrable and blocking
paths coincide). -/
def insertStore (c : PacketCache) (key : Nat) (qname : List Nat) (qtype qclass : Nat)
    (response : List Nat) (tcp : Bool) (minTTL : Nat) (now : Int) : PacketCache :=
  if c.d_maxEntries / c.d_shardCount
      ≤ (c.d_shards.getD (getShardIndex c key) ⟨[], 0⟩).d_entriesCount then c
  else
    { c with
      d_shards := c.d_shards.set (getShardIndex c key)
        (insertLocked c.d_maxEntries c.d_shardCount
          (c.d_shards.getD (getShardIndex c key) ⟨[], 0⟩) key qname qtype qclass tcp
          (mkCacheValue qname qtype qclass response tcp now (now + (minTTL : Int))) now
          (now + (minTTL : Int))).1,
      d_insertCollisions := c.d_insertCollisions
        + (if (insertLocked c.d_maxEntries c.d_shardCount
              (c.d_shards.getD (getShardIndex c key) ⟨[], 0⟩) key qname qtype qclass tcp
              (mkCacheValue qname qtype qclass response tcp now (now + (minTTL : Int))) now
              (now + (minTTL : Int))).2 then 1 else 0) }

/-- `DNSDistPacketCache::insert`: drop short responses, derive the
effective TTL (temp-failure TTL for SERVFAIL (2) / REFUSED (5),
otherwise the clamped minimum RR TTL), then store. -/
def insert (c : PacketCache) (key : Nat) (qname : List Nat) (qtype qclass : Nat)
    (response : List Nat) (tcp : Bool) (rcode : Nat) (tempFailureTTL : Option Nat)
    (now : Int) : PacketCache :=
  if response.length < 12 then c
  else if rcode = 2 ∨ rcode = 5 then
    let minTTL := match tempFailureTTL with
      | none => c.d_tempFailureTTL
      | some t => t
    if minTTL = 0 then c
    else insertStore c key qname qtype qclass response tcp minTTL now
  else
    let m := getMinTTL response
    if m = 4294967295 then c
    else
      let m := if c.d_maxTTL < m then c.d_maxTTL else m
      if m < c.d_minTTL then { c with d_ttlTooShorts := c.d_ttlTooShorts + 1 }
      else insertStore c key qname qtype qclass response tcp m now

/-- Modelled from the spec: the two query-ID bytes spliced into the
output buffer (the `memcpy` of the caller's 16-bit id). -/
def qidBytes (queryId : Nat) : List Nat :=
  [queryId % 256, queryId / 256 % 256]

/-- The output buffer built by a non-header-only hit before aging: the
spliced query id, the rest of the cached header, the query's qname bytes
and the rest of the cached payload. -/
def spliceResponse (queryId : Nat) (payload : List Nat) (paylen : Nat)
    (qname : List Nat) : List Nat :=
  qidBytes queryId ++ (payload.drop 2).take 10 ++ qname
    ++ (payload.drop (12 + qname.length)).take (paylen - (12 + qname.length))

/-- The part of `get` past the expiry decision, on a found entry:
buffer/size checks, collision check, header splice, header-only
shortcut, qname restoration, tail copy and aging. -/
def getHit (c : PacketCache) (dnsQName : List Nat) (qtype qclass : Nat) (tcp : Bool)
    (queryId bufCap : Nat) (now : Int) (skipAging stale : Bool) (value : CacheValue) :
    PacketCache × Bool × List Nat × Nat :=
  if bufCap < value.len ∨ value.len < 12 then (c, false, [], bufCap)
  else if cachedValueMatches value dnsQName qtype qclass tcp = false then
    ({ c with d_lookupCollisions := c.d_lookupCollisions + 1 }, false, [], bufCap)
  else if value.len = 12 then
    ({ c with d_hits := c.d_hits + 1 }, true, qidBytes queryId ++ (value.value.drop 2).take 10, 12)
  else if value.len < 12 + dnsQName.length then (c, false, [], bufCap)
  else
    let out := spliceResponse queryId value.value value.len dnsQName
    let age : Int := if stale = false then now - value.added
      else (value.validity - value.added) - (c.d_staleTTL : Int)
    let out2 := if c.d_dontAge = false ∧ skipAging = false then
        ageDNSPacket out ((age % 4294967296).toNat)
      else out
    ({ c with d_hits := c.d_hits + 1 }, true, out2, value.len)

/-- `DNSDistPacketCache::get`: key computation (`none` models the thrown
range error), shard probe, expiry/staleness decision and the hit path.
Returns the updated cache, the hit flag, the bytes written to the output
buffer and the output length. -/
def get (c : PacketCache) (dq : DNSQuestion) (consumed queryId bufCap : Nat)
    (now : Int) (allowExpired : Nat) (skipAging : Bool) :
    Option (PacketCache × Bool × List Nat × Nat) :=
  match getKey dq.qname consumed dq.packet dq.tcp with
  | none => none
  | some key =>
    let shard := c.d_shards.getD (getShardIndex c key) ⟨[], 0⟩
    match shard.d_map.lookup key with
    | none => some ({ c with d_misses := c.d_misses + 1 }, false, [], bufCap)
    | some value =>
      if value.validity < now then
        if (allowExpired : Int) ≤ now - value.validity then
          some ({ c with d_misses := c.d_misses + 1 }, false, [], bufCap)
        else
          some (getHit c dq.qname dq.qtype dq.qclass dq.tcp queryId bufCap now skipAging true value)
      else
        some (getHit c dq.qname dq.qtype dq.qclass dq.tcp queryId bufCap now skipAging false value)

/-- One shard's linear scan inside `purgeExpired`: delete expired
entries while the budget lasts; returns the remaining map and budget. -/
def purgeShardMap (now : Int) : List (Nat × CacheValue) → Nat → List (Nat × CacheValue) × Nat
  | l, 0 => (l, 0)
  | [], n => ([], n)
  | (k, v) :: rest, n + 1 =>
    if v.validity < now then purgeShardMap now rest n
    else ((k, v) :: (purgeShardMap now rest (n + 1)).1, (purgeShardMap now rest (n + 1)).2)

/-- One iteration of the `purgeExpired` do-while body: pick the rotation
shard, bump the rotation index, scan the shard. -/
def purgeStep (now : Int) (c : PacketCache) (toRemove : Nat) : PacketCache × Nat :=
  let shardIndex := c.d_expungeIndex % c.d_shardCount
  let c1 := { c with d_expungeIndex := c.d_expungeIndex + 1 }
  let shard := c1.d_shards.getD shardIndex ⟨[], 0⟩
  let pr := purgeShardMap now shard.d_map toRemove
  let removed := toRemove - pr.2
  ({ c1 with
      d_shards := c1.d_shards.set shardIndex
        { d_map := pr.1, d_entriesCount := shard.d_entriesCount - removed } },
    pr.2)

/-- The `purgeExpired` do-while loop, fuelled by the number of shard
scans still allowed. -/
def purgeGo (now : Int) : Nat → PacketCache → Nat → PacketCache
  | 0, c, _ => c
  | fuel + 1, c, toRemove =>
    if 0 < (purgeStep now c toRemove).2 ∧ 0 < fuel then
      purgeGo now fuel (purgeStep now c toRemove).1 (purgeStep now c toRemove).2
    else (purgeStep now c toRemove).1

/-- `DNSDistPacketCache::purgeExpired`: nothing to do when the size is
already at most `upTo`, otherwise scan up to all shards deleting expired
entries within the budget `size - upTo`. -/
def purgeExpired (c : PacketCache) (upTo : Nat) (now : Int) : PacketCache :=
  if getSize c ≤ upTo then c
  else purgeGo now c.d_shardCount c (getSize c - upTo)

/-- The `expunge` shard loop: shard `i` receives the target
`(toRemove - removed) / (shardCount - i)`; a shard at least that big
loses exactly the target (its first entries in iteration order), a
smaller shard is cleared.  Returns the new shards and the total
removed. -/
def expungeShards (shardCount toRemove : Nat) : Nat → Nat → List CacheShard →
    List CacheShard × Nat
  | _, removed, [] => ([], removed)
  | i, removed, shard :: rest =>
    if (toRemove - removed) / (shardCount - i) ≤ shard.d_map.length then
      ({ d_map := shard.d_map.drop ((toRemove - removed) / (shardCount - i)),
         d_entriesCount := shard.d_entriesCount - (toRemove - removed) / (shardCount - i) }
          :: (expungeShards shardCount toRemove (i + 1)
                (removed + (toRemove - removed) / (shardCount - i)) rest).1,
       (expungeShards shardCount toRemove (i + 1)
          (removed + (toRemove - removed) / (shardCount - i)) rest).2)
    else
      (({ d_map := [], d_entriesCount := 0 } : CacheShard)
          :: (expungeShards shardCount toRemove (i + 1) (removed + shard.d_map.length) rest).1,
       (expungeShards shardCount toRemove (i + 1) (removed + shard.d_map.length) rest).2)

/-- `DNSDistPacketCache::expunge`: nothing to do when the size is at
most `upTo`, otherwise spread the budget `size - upTo` across shards. -/
def expunge (c : PacketCache) (upTo : Nat) : PacketCache :=
  if getSize c ≤ upTo then c
  else
    { c with d_shards := (expungeShards c.d_shardCount (getSize c - upTo) 0 0 c.d_shards).1 }

/-- Companion predicate to `expungeShards` (not part of the source):
true when every shard holds at least its computed deletion target, so no
shortfall ever arises during the run. -/
def expungeMeets (shardCount toRemove : Nat) : Nat → Nat → List CacheShard → Bool
  | _, _, [] => true
  | i, removed, shard :: rest =>
    if (toRemove - removed) / (shardCount - i) ≤ shard.d_map.length then
      expungeMeets shardCount toRemove (i + 1)
        (removed + (toRemove - removed) / (shardCount - i)) rest
    else false

/-- `DNSDistPacketCache::expungeByName`: delete from every shard the
entries whose stored qname matches (exactly, or as a suffix when asked)
and whose qtype matches (or `ANY` = 255 was asked). -/
def expungeByName (c : PacketCache) (name : List Nat) (qtype : Nat) (suffixMatch : Bool)
    (isPartOf : List Nat → List Nat → Bool) : PacketCache :=
  { c with
    d_shards := c.d_shards.map (fun sh =>
      let kept := sh.d_map.filter (fun kv =>
        ¬ ((dnsNameEq kv.2.qname name ∨ (suffixMatch ∧ isPartOf kv.2.qname name))
          ∧ (qtype = 255 ∨ qtype = kv.2.qtype)))
      { d_map := kept, d_entriesCount := sh.d_entriesCount - (sh.d_map.length - kept.length) }) }

/-- Entry stored at `key` in the cache, through the shard selector. -/
def shardFind (c : PacketCache) (key : Nat) : Option CacheValue :=
  ((c.d_shards.getD (getShardIndex c key) ⟨[], 0⟩).d_map).lookup key

/-- One insert request, for reasoning about sequences of inserts. -/
structure InsertReq where
  key : Nat
  qname : List Nat
  qtype : Nat
  qclass : Nat
  response : List Nat
  tcp : Bool
  rcode : Nat
  tempFailureTTL : Option Nat
  now : Int

/-- Folding a sequence of insert requests over a cache. -/
def applyInserts (c : PacketCache) (reqs : List InsertReq) : PacketCache :=
  reqs.foldl (fun acc r =>
    insert acc r.key r.qname r.qtype r.qclass r.response r.tcp r.rcode r.tempFailureTTL r.now) c

end PdnsCache

namespace PdnsCache

/-! ## Concrete instances used by witnesses and counterexamples -/

/-- Wire-format qname for the name `a.` -/
def exQname : List Nat := [1, 97, 0]

/-- A minimal query packet: a bare DNS header of zero bytes. -/
def exPacket : List Nat := List.replicate 12 0

/-- The query descriptor used in the concrete scenarios. -/
def exDq : DNSQuestion := ⟨exQname, 1, 1, false, exPacket⟩

/-- The key `get` computes for `exDq` with `consumed = 0`. -/
def exKey : Nat := (getKey exQname 0 exPacket false).getD 0

/-- A single-shard cache holding the supplied entries, counters at 0. -/
def oneShardCache (entries : List (Nat × CacheValue)) : PacketCache :=
  { mkCache 100 86400 0 60 60 false 1 false with
    d_shards := [⟨entries, entries.length⟩] }

/-- An entry whose attributes do not match `exDq` (qtype 28, not 1) and
which expired at time 0. -/
def vMismatchExpired : CacheValue :=
  ⟨exQname, 28, 1, 35, 0, -300, false, List.replicate 35 1⟩

/-- An entry whose attributes do not match `exDq` (qtype 28, not 1) and
which stays valid until time 2000. -/
def vMismatchFresh : CacheValue :=
  ⟨exQname, 28, 1, 35, 2000, 0, false, List.replicate 35 1⟩

/-- A matching entry that expired at time 95 (inserted at 0). -/
def vMatchExpired95 : CacheValue :=
  ⟨exQname, 1, 1, 35, 95, 0, false, List.replicate 35 1⟩

/-- A matching entry whose validity deadline is exactly 100. -/
def vMatchDeadline100 : CacheValue :=
  ⟨exQname, 1, 1, 35, 100, 0, false, List.replicate 35 1⟩

/-- A matching, fresh entry whose 13-byte payload is longer than a DNS
header but shorter than header + qname. -/
def vMatchShortPayload : CacheValue :=
  ⟨exQname, 1, 1, 13, 2000, 0, false, List.replicate 13 2⟩

/-- The output buffer a fresh hit produces for a stored `response`:
query id spliced, qname restored, TTLs aged by `age` (reduced through
the `uint32_t` seconds argument of `ageDNSPacket`). -/
def agedRoundtripOutput (queryId : Nat) (response qname : List Nat) (age : Int) : List Nat :=
  ageDNSPacket (spliceResponse queryId response response.length qname) ((age % 4294967296).toNat)

/-- A well-formed 35-byte response for the question `a. A IN`: header
with one question and one answer, the question, and one A record with
TTL 300 whose name is a compression pointer to the question. -/
def exRespA : List Nat :=
  [0, 0, 128, 0, 0, 1, 0, 1, 0, 0, 0, 0] ++ [1, 97, 0] ++ [0, 1, 0, 1]
  ++ [192, 12] ++ [0, 1, 0, 1] ++ [0, 0, 1, 44] ++ [0, 4] ++ [10, 0, 0, 1]

/-- Total number of entries actually held in the shard maps. -/
def shardMapLens (l : List CacheShard) : Nat := (l.map (fun sh => sh.d_map.length)).sum

/-- Total map occupancy of the cache (the map-side counterpart of
`getSize`, which reads the counters). -/
def totalMapLen (c : PacketCache) : Nat := shardMapLens c.d_shards

/-- Well-formedness of a cache state: the shard list has the configured
length, every counter equals its map's size, and every shard is within
the per-shard capacity. -/
def CacheWF (c : PacketCache) : Prop :=
  c.d_shards.length = c.d_shardCount
  ∧ ∀ sh ∈ c.d_shards, sh.d_entriesCount = sh.d_map.length
      ∧ sh.d_map.length ≤ c.d_maxEntries / c.d_shardCount

/-- A placeholder entry for populating eviction scenarios. -/
def dummyVal : CacheValue := ⟨[0], 0, 0, 12, 1000, 0, false, []⟩

/-- A two-shard cache with all 10 entries in shard 0 — skewed occupancy. -/
def cSkew : PacketCache :=
  { mkCache 100 86400 0 60 60 false 2 false with
    d_shards := [⟨(List.range 10).map (fun k => (k, dummyVal)), 10⟩, ⟨[], 0⟩] }

/-- A two-shard cache with 5 entries in each shard — even occupancy. -/
def cEven : PacketCache :=
  { mkCache 100 86400 0 60 60 false 2 false with
    d_shards := [⟨(List.range 5).map (fun k => (k, dummyVal)), 5⟩,
                 ⟨(List.range 5).map (fun k => (k + 100, dummyVal)), 5⟩] }

end PdnsCache

namespace PdnsCache

/-! ## Helper lemmas -/

/-- `get` on a query whose key is computed and found in the owning shard
reduces to the expiry decision over the found entry. -/
theorem get_eq_of_found (c : PacketCache) (dq : DNSQuestion) (consumed queryId bufCap : Nat)
    (now : Int) (allowExpired : Nat) (skipAging : Bool) (key : Nat) (v : CacheValue)
    (hkey : getKey dq.qname consumed dq.packet dq.tcp = some key)
    (hfind : shardFind c key = some v) :
    get c dq consumed queryId bufCap now allowExpired skipAging =
      (if v.validity < now then
        if (allowExpired : Int) ≤ now - v.validity then
          some ({ c with d_misses := c.d_misses + 1 }, false, [], bufCap)
        else
          some (getHit c dq.qname dq.qtype dq.qclass dq.tcp queryId bufCap now skipAging true v)
      else
        some (getHit c dq.qname dq.qtype dq.qclass dq.tcp queryId bufCap now skipAging false v)) := by
  unfold get
  simp only [hkey]
  unfold shardFind at hfind
  simp only [hfind]

/-- `getHit` on the main path (all checks pass, payload longer than a
header) produces the spliced, aged response. -/
theorem getHit_main (c : PacketCache) (dnsQName : List Nat) (qtype qclass : Nat) (tcp : Bool)
    (queryId bufCap : Nat) (now : Int) (skipAging stale : Bool) (value : CacheValue)
    (hbuf : value.len ≤ bufCap) (h12 : 12 < value.len)
    (hm : cachedValueMatches value dnsQName qtype qclass tcp = true)
    (hq : 12 + dnsQName.length ≤ value.len) :
    getHit c dnsQName qtype qclass tcp queryId bufCap now skipAging stale value =
      ({ c with d_hits := c.d_hits + 1 }, true,
        (if c.d_dontAge = false ∧ skipAging = false then
          ageDNSPacket (spliceResponse queryId value.value value.len dnsQName)
            (((if stale = false then now - value.added
                else (value.validity - value.added) - (c.d_staleTTL : Int)) % 4294967296).toNat)
        else spliceResponse queryId value.value value.len dnsQName), value.len) := by
  unfold getHit
  rw [if_neg (by omega)]
  rw [if_neg (by rw [hm]; exact fun hc => Bool.noConfusion hc)]
  rw [if_neg (by omega)]
  rw [if_neg (by omega)]

/-- A hit can only be produced after the collision check succeeded. -/
theorem getHit_hit_matches (c : PacketCache) (dnsQName : List Nat) (qtype qclass : Nat)
    (tcp : Bool) (queryId bufCap : Nat) (now : Int) (skipAging stale : Bool) (value : CacheValue)
    (h : (getHit c dnsQName qtype qclass tcp queryId bufCap now skipAging stale value).2.1 = true) :
    cachedValueMatches value dnsQName qtype qclass tcp = true := by
  unfold getHit at h
  by_cases h1 : bufCap < value.len ∨ value.len < 12
  · rw [if_pos h1] at h
    exact Bool.noConfusion h
  · rw [if_neg h1] at h
    by_cases h2 : cachedValueMatches value dnsQName qtype qclass tcp = false
    · rw [if_pos h2] at h
      exact Bool.noConfusion h
    · cases hb : cachedValueMatches value dnsQName qtype qclass tcp
      · exact absurd hb h2
      · rfl

/-- A found entry that fits the buffer but fails the collision check is
reported as a miss with `lookupCollisions` bumped. -/
theorem getHit_collision (c : PacketCache) (dnsQName : List Nat) (qtype qclass : Nat)
    (tcp : Bool) (queryId bufCap : Nat) (now : Int) (skipAging stale : Bool) (value : CacheValue)
    (hbuf : value.len ≤ bufCap) (h12 : 12 ≤ value.len)
    (hmm : cachedValueMatches value dnsQName qtype qclass tcp = false) :
    getHit c dnsQName qtype qclass tcp queryId bufCap now skipAging stale value
      = ({ c with d_lookupCollisions := c.d_lookupCollisions + 1 }, false, [], bufCap) := by
  unfold getHit
  rw [if_neg (by omega), if_pos hmm]

/-! ## Claim theorems -/

/-- C1 (amended): every `get` hit passed the collision check — the
stored entry matches the query's attributes; and a lookup that finds an
entry which passes the expiry and buffer-size checks but whose
attributes do not match returns a miss and increments
`lookupCollisions` by exactly one. -/
theorem C1_lookup_collision_check (c : PacketCache) (dq : DNSQuestion)
    (consumed queryId bufCap : Nat) (now : Int) (allowExpired : Nat) (skipAging : Bool)
    (key : Nat) (v : CacheValue)
    (hkey : getKey dq.qname consumed dq.packet dq.tcp = some key)
    (hfind : shardFind c key = some v) :
    (∀ r, get c dq consumed queryId bufCap now allowExpired skipAging = some r →
      r.2.1 = true → cachedValueMatches v dq.qname dq.qtype dq.qclass dq.tcp = true)
    ∧ (¬ (v.validity < now ∧ (allowExpired : Int) ≤ now - v.validity) →
       v.len ≤ bufCap → 12 ≤ v.len →
       cachedValueMatches v dq.qname dq.qtype dq.qclass dq.tcp = false →
       get c dq consumed queryId bufCap now allowExpired skipAging =
         some ({ c with d_lookupCollisions := c.d_lookupCollisions + 1 }, false, [], bufCap)) := by
  constructor
  · intro r hr htrue
    rw [get_eq_of_found c dq consumed queryId bufCap now allowExpired skipAging key v hkey hfind] at hr
    by_cases h1 : v.validity < now
    · rw [if_pos h1] at hr
      by_cases h2 : (allowExpired : Int) ≤ now - v.validity
      · rw [if_pos h2] at hr
        injection hr with hr
        subst hr
        exact Bool.noConfusion htrue
      · rw [if_neg h2] at hr
        injection hr with hr
        subst hr
        exact getHit_hit_matches c dq.qname dq.qtype dq.qclass dq.tcp queryId bufCap now
          skipAging true v htrue
    · rw [if_neg h1] at hr
      injection hr with hr
      subst hr
      exact getHit_hit_matches c dq.qname dq.qtype dq.qclass dq.tcp queryId bufCap now
        skipAging false v htrue
  · intro hexp hbuf h12 hmm
    rw [get_eq_of_found c dq consumed queryId bufCap now allowExpired skipAging key v hkey hfind]
    by_cases h1 : v.validity < now
    · rw [if_pos h1, if_neg (fun h2 => hexp ⟨h1, h2⟩),
        getHit_collision c dq.qname dq.qtype dq.qclass dq.tcp queryId bufCap now skipAging true v
          hbuf h12 hmm]
    · rw [if_neg h1,
        getHit_collision c dq.qname dq.qtype dq.qclass dq.tcp queryId bufCap now skipAging false v
          hbuf h12 hmm]

/-- C1 counterexample: a lookup that finds an entry whose attributes do
not match but which is also expired beyond `allowExpired` returns a miss
through the expiry path: `lookupCollisions` stays 0, refuting the
claim's unconditional "increments lookupCollisions by one". -/
theorem C1_counterexample_expired_mismatch :
    getKey exDq.qname 0 exDq.packet exDq.tcp = some exKey
    ∧ shardFind (oneShardCache [(exKey, vMismatchExpired)]) exKey = some vMismatchExpired
    ∧ cachedValueMatches vMismatchExpired exDq.qname exDq.qtype exDq.qclass exDq.tcp = false
    ∧ (get (oneShardCache [(exKey, vMismatchExpired)]) exDq 0 7 512 100 5 false).map
        (fun r => (r.2.1, r.1.d_lookupCollisions, r.1.d_misses)) = some (false, 0, 1) := by
  decide

/-- C1 witness: the amended collision branch at a concrete input with a
live mismatching entry. -/
theorem C1_witness :
    get (oneShardCache [(exKey, vMismatchFresh)]) exDq 0 7 512 100 5 false =
      some ({ oneShardCache [(exKey, vMismatchFresh)] with d_lookupCollisions := 1 }, false, [], 512) :=
  (C1_lookup_collision_check (oneShardCache [(exKey, vMismatchFresh)]) exDq 0 7 512 100 5 false
    exKey vMismatchFresh (by decide) (by decide)).2 (by decide) (by decide) (by decide) (by decide)

/-- C6: on an insert that finds a live prior entry with mismatching
attributes, the old entry is kept and the collision flag (feeding
`insertCollisions`) is raised; on a prior entry that is expired or
matches, the entry is overwritten exactly when the new validity is
strictly later. -/
theorem C6_insert_collision_policy
    (maxEntries shardCount : Nat) (shard : CacheShard) (key : Nat) (qname : List Nat)
    (qtype qclass : Nat) (tcp : Bool) (newValue : CacheValue) (now newValidity : Int)
    (old : CacheValue)
    (hcap : shard.d_map.length < maxEntries / shardCount)
    (hfind : shard.d_map.lookup key = some old) :
    ((now < old.validity ∧ cachedValueMatches old qname qtype qclass tcp = false) →
      insertLocked maxEntries shardCount shard key qname qtype qclass tcp newValue now newValidity
        = (shard, true))
    ∧ ((old.validity ≤ now ∨ cachedValueMatches old qname qtype qclass tcp = true) →
      insertLocked maxEntries shardCount shard key qname qtype qclass tcp newValue now newValidity
        = (if old.validity < newValidity
            then { shard with d_map := replaceEntry shard.d_map key newValue }
            else shard, false)) := by
  unfold insertLocked
  rw [if_neg (not_le.mpr hcap), hfind]
  constructor
  · intro h
    simp only []
    rw [if_pos ⟨not_le.mpr h.1, h.2⟩]
  · intro h
    have hneg : ¬ (¬ old.validity ≤ now ∧ cachedValueMatches old qname qtype qclass tcp = false) := by
      rcases h with h | h
      · intro hc; exact hc.1 h
      · intro hc; rw [h] at hc; exact Bool.noConfusion hc.2
    simp only []
    rw [if_neg hneg]
    by_cases hlt : newValidity ≤ old.validity
    · rw [if_pos hlt, if_neg (not_lt.mpr hlt)]
    · rw [if_neg hlt, if_pos (not_le.mp hlt)]

/-- C6 witness: a live mismatching prior entry at key 5 is kept and the
collision flag raised. -/
theorem C6_witness :
    insertLocked 100 1 ⟨[(5, vMismatchFresh)], 1⟩ 5 exQname 1 1 false vMatchDeadline100 100 150
      = (⟨[(5, vMismatchFresh)], 1⟩, true) :=
  (C6_insert_collision_policy 100 1 ⟨[(5, vMismatchFresh)], 1⟩ 5 exQname 1 1 false
    vMatchDeadline100 100 150 vMismatchFresh (by decide) (by decide)).1 ⟨by decide, by decide⟩

/-- C7: an insert with rcode SERVFAIL (2) or REFUSED (5) whose effective
temp-failure TTL (the override when present, otherwise the configured
one) is zero leaves the cache completely unchanged. -/
theorem C7_tempfail_ttl_zero_not_cached (c : PacketCache) (key : Nat) (qname : List Nat)
    (qtype qclass : Nat) (response : List Nat) (tcp : Bool) (rcode : Nat)
    (tempFailureTTL : Option Nat) (now : Int)
    (hrcode : rcode = 2 ∨ rcode = 5)
    (httl : tempFailureTTL.getD c.d_tempFailureTTL = 0) :
    insert c key qname qtype qclass response tcp rcode tempFailureTTL now = c := by
  unfold insert
  rcases tempFailureTTL with _ | t <;> simp only [Option.getD] at httl <;>
    simp [hrcode, httl]

/-- C7 witness: a SERVFAIL insert with an explicit zero override. -/
theorem C7_witness :
    insert (mkCache 100 86400 0 60 60 false 1 false) 5 exQname 1 1 (List.replicate 20 0)
        false 2 (some 0) 100
      = mkCache 100 86400 0 60 60 false 1 false :=
  C7_tempfail_ttl_zero_not_cached (mkCache 100 86400 0 60 60 false 1 false) 5 exQname 1 1
    (List.replicate 20 0) false 2 (some 0) 100 (by decide) (by decide)

/-- C9: the expiry comparison is strict on lookup and inclusive on
insert: a `get` that finds an entry whose validity equals `now` takes
the fresh (non-stale) branch — even with `allowExpired = 0` — while
`insertLocked` on a prior entry whose validity equals `now` treats it as
expired: a mismatching live-looking entry raises no collision and is
overwritten exactly when the new validity is strictly later. -/
theorem C9_expiry_boundary (c : PacketCache) (dq : DNSQuestion)
    (consumed queryId bufCap : Nat) (now : Int) (allowExpired : Nat) (skipAging : Bool)
    (key : Nat) (v : CacheValue)
    (maxEntries shardCount : Nat) (shard : CacheShard) (key2 : Nat) (qname : List Nat)
    (qtype qclass : Nat) (tcp : Bool) (newValue : CacheValue) (newValidity : Int)
    (old : CacheValue)
    (hkey : getKey dq.qname consumed dq.packet dq.tcp = some key)
    (hfind : shardFind c key = some v)
    (hval : v.validity = now)
    (hcap : shard.d_map.length < maxEntries / shardCount)
    (hfind2 : shard.d_map.lookup key2 = some old)
    (hold : old.validity = now)
    (hmm : cachedValueMatches old qname qtype qclass tcp = false) :
    get c dq consumed queryId bufCap now allowExpired skipAging =
      some (getHit c dq.qname dq.qtype dq.qclass dq.tcp queryId bufCap now skipAging false v)
    ∧ insertLocked maxEntries shardCount shard key2 qname qtype qclass tcp newValue now newValidity
      = (if now < newValidity
          then { shard with d_map := replaceEntry shard.d_map key2 newValue }
          else shard, false) := by
  constructor
  · rw [get_eq_of_found c dq consumed queryId bufCap now allowExpired skipAging key v hkey hfind]
    rw [if_neg (by rw [hval]; exact lt_irrefl now)]
  · unfold insertLocked
    rw [if_neg (not_le.mpr hcap), hfind2]
    simp only []
    rw [if_neg (fun hc => hc.1 (le_of_eq hold))]
    by_cases hlt : newValidity ≤ old.validity
    · rw [if_pos hlt, if_neg (by rw [← hold]; exact not_lt.mpr hlt)]
    · rw [if_neg hlt, if_pos (by rw [← hold]; exact not_le.mp hlt)]

/-- C9 witness: deadline exactly `now = 100` on both sides. -/
theorem C9_witness :
    get (oneShardCache [(exKey, vMatchDeadline100)]) exDq 0 7 512 100 0 false =
      some (getHit (oneShardCache [(exKey, vMatchDeadline100)]) exDq.qname exDq.qtype
        exDq.qclass exDq.tcp 7 512 100 false false vMatchDeadline100)
    ∧ insertLocked 100 1 ⟨[(5, vMatchDeadline100)], 1⟩ 5 [1, 98, 0] 1 1 false
        vMismatchFresh 100 150
      = (if (100 : Int) < 150
          then { (⟨[(5, vMatchDeadline100)], 1⟩ : CacheShard) with
                  d_map := replaceEntry [(5, vMatchDeadline100)] 5 vMismatchFresh }
          else ⟨[(5, vMatchDeadline100)], 1⟩, false) :=
  C9_expiry_boundary (oneShardCache [(exKey, vMatchDeadline100)]) exDq 0 7 512 100 0 false
    exKey vMatchDeadline100 100 1 ⟨[(5, vMatchDeadline100)], 1⟩ 5 [1, 98, 0] 1 1 false
    vMismatchFresh 150 vMatchDeadline100 (by decide) (by decide) (by decide) (by decide)
    (by decide) (by decide) (by decide)

/-- C10: a `get` that finds a matching, non-expired entry whose payload
is longer than a DNS header but shorter than header + qname returns
false with the cache object — counters and shards — unchanged. -/
theorem C10_short_payload_silent_miss (c : PacketCache) (dq : DNSQuestion)
    (consumed queryId bufCap : Nat) (now : Int) (allowExpired : Nat) (skipAging : Bool)
    (key : Nat) (v : CacheValue)
    (hkey : getKey dq.qname consumed dq.packet dq.tcp = some key)
    (hfind : shardFind c key = some v)
    (hmatch : cachedValueMatches v dq.qname dq.qtype dq.qclass dq.tcp = true)
    (hfresh : ¬ v.validity < now)
    (h12 : 12 < v.len)
    (hshort : v.len < 12 + dq.qname.length) :
    get c dq consumed queryId bufCap now allowExpired skipAging = some (c, false, [], bufCap) := by
  rw [get_eq_of_found c dq consumed queryId bufCap now allowExpired skipAging key v hkey hfind]
  rw [if_neg hfresh]
  unfold getHit
  by_cases hb : bufCap < v.len ∨ v.len < 12
  · rw [if_pos hb]
  · rw [if_neg hb,
      if_neg (by rw [hmatch]; exact fun hc => Bool.noConfusion hc),
      if_neg (by omega), if_pos hshort]

/-- C10 witness: a 13-byte payload under a 3-byte qname. -/
theorem C10_witness :
    get (oneShardCache [(exKey, vMatchShortPayload)]) exDq 0 7 512 100 0 false =
      some (oneShardCache [(exKey, vMatchShortPayload)], false, [], 512) :=
  C10_short_payload_silent_miss (oneShardCache [(exKey, vMatchShortPayload)]) exDq 0 7 512 100 0
    false exKey vMatchShortPayload (by decide) (by decide) (by decide) (by decide) (by decide)
    (by decide)

end PdnsCache

namespace PdnsCache

/-- C3 (amended): on a found entry that has expired, `get` misses (and
counts a miss) when the age beyond expiry equals or exceeds
`allowExpired`; when the entry is expired strictly within the tolerance
and the buffer, collision and length checks pass, `get` returns a stale
hit aged with age = (validity − added) − staleTTL, while a fresh hit is
aged with age = now − added. -/
theorem C3_expiry_tolerance_and_age (c : PacketCache) (dq : DNSQuestion)
    (consumed queryId bufCap : Nat) (now : Int) (allowExpired : Nat) (skipAging : Bool)
    (key : Nat) (v : CacheValue)
    (hkey : getKey dq.qname consumed dq.packet dq.tcp = some key)
    (hfind : shardFind c key = some v) :
    (v.validity < now → (allowExpired : Int) ≤ now - v.validity →
      get c dq consumed queryId bufCap now allowExpired skipAging =
        some ({ c with d_misses := c.d_misses + 1 }, false, [], bufCap))
    ∧ (v.validity < now → now - v.validity < (allowExpired : Int) →
       v.len ≤ bufCap → 12 < v.len →
       cachedValueMatches v dq.qname dq.qtype dq.qclass dq.tcp = true →
       12 + dq.qname.length ≤ v.len →
       c.d_dontAge = false → skipAging = false →
       get c dq consumed queryId bufCap now allowExpired skipAging =
         some ({ c with d_hits := c.d_hits + 1 }, true,
           ageDNSPacket (spliceResponse queryId v.value v.len dq.qname)
             ((((v.validity - v.added) - (c.d_staleTTL : Int)) % 4294967296).toNat), v.len))
    ∧ (¬ v.validity < now →
       v.len ≤ bufCap → 12 < v.len →
       cachedValueMatches v dq.qname dq.qtype dq.qclass dq.tcp = true →
       12 + dq.qname.length ≤ v.len →
       c.d_dontAge = false → skipAging = false →
       get c dq consumed queryId bufCap now allowExpired skipAging =
         some ({ c with d_hits := c.d_hits + 1 }, true,
           ageDNSPacket (spliceResponse queryId v.value v.len dq.qname)
             (((now - v.added) % 4294967296).toNat), v.len)) := by
  refine ⟨?_, ?_, ?_⟩
  · intro h1 h2
    rw [get_eq_of_found c dq consumed queryId bufCap now allowExpired skipAging key v hkey hfind]
    rw [if_pos h1, if_pos h2]
  · intro h1 h2 hbuf h12 hm hq hdont hskip
    rw [get_eq_of_found c dq consumed queryId bufCap now allowExpired skipAging key v hkey hfind]
    rw [if_pos h1, if_neg (not_le.mpr h2)]
    rw [getHit_main c dq.qname dq.qtype dq.qclass dq.tcp queryId bufCap now skipAging true v
      hbuf h12 hm hq]
    rw [if_pos ⟨hdont, hskip⟩, if_neg (fun h => Bool.noConfusion h)]
  · intro h1 hbuf h12 hm hq hdont hskip
    rw [get_eq_of_found c dq consumed queryId bufCap now allowExpired skipAging key v hkey hfind]
    rw [if_neg h1]
    rw [getHit_main c dq.qname dq.qtype dq.qclass dq.tcp queryId bufCap now skipAging false v
      hbuf h12 hm hq]
    rw [if_pos ⟨hdont, hskip⟩, if_pos rfl]

/-- C3 counterexample: an entry whose age beyond expiry is exactly
`allowExpired` (5 = 5, which does not *exceed* the tolerance) is still
rejected — the comparison in the code is `≥`, not `>` — so the claim's
"within the tolerance ⇒ stale hit" fails at the boundary. -/
theorem C3_counterexample_boundary :
    shardFind (oneShardCache [(exKey, vMatchExpired95)]) exKey = some vMatchExpired95
    ∧ cachedValueMatches vMatchExpired95 exDq.qname exDq.qtype exDq.qclass exDq.tcp = true
    ∧ vMatchExpired95.validity < (100 : Int)
    ∧ (100 : Int) - vMatchExpired95.validity = (5 : Nat)
    ∧ ¬ ((5 : Int) < (5 : Nat))
    ∧ (get (oneShardCache [(exKey, vMatchExpired95)]) exDq 0 7 512 100 5 false).map
        (fun r => (r.2.1, r.1.d_misses, r.1.d_hits)) = some (false, 1, 0) := by
  decide

/-- C3 witness: the beyond-tolerance miss branch at `now = 101`. -/
theorem C3_witness :
    get (oneShardCache [(exKey, vMatchExpired95)]) exDq 0 7 512 101 5 false =
      some ({ oneShardCache [(exKey, vMatchExpired95)] with
              d_misses := (oneShardCache [(exKey, vMatchExpired95)]).d_misses + 1 },
        false, [], 512) :=
  (C3_expiry_tolerance_and_age (oneShardCache [(exKey, vMatchExpired95)]) exDq 0 7 512 101 5
    false exKey vMatchExpired95 (by decide) (by decide)).1 (by decide) (by decide)

end PdnsCache

namespace PdnsCache

/-! ## Byte-level lemmas about aging and the splice -/

/-- Writing a TTL preserves the packet length. -/
theorem writeTTLAt_length (p : List Nat) (o t : Nat) : (writeTTLAt p o t).length = p.length := by
  simp [writeTTLAt]

/-- Writing a TTL at `o` leaves every byte outside `[o, o+4)` alone. -/
theorem getD_writeTTLAt (p : List Nat) (o t i d : Nat) (h : i < o ∨ o + 4 ≤ i) :
    (writeTTLAt p o t).getD i d = p.getD i d := by
  unfold writeTTLAt
  rw [List.getD_eq_getElem?_getD, List.getD_eq_getElem?_getD,
    List.getElem?_set_ne (by omega), List.getElem?_set_ne (by omega),
    List.getElem?_set_ne (by omega), List.getElem?_set_ne (by omega)]

/-- The TTL-writing fold preserves the length. -/
theorem foldl_writeTTL_length (p : List Nat) (s : Nat) (os acc : List Nat) :
    (os.foldl (fun a o => writeTTLAt a o (readTTLAt p o - s)) acc).length = acc.length := by
  induction os generalizing acc with
  | nil => rfl
  | cons o os ih =>
    simp only [List.foldl_cons]
    rw [ih]
    exact writeTTLAt_length acc o _

/-- The TTL-writing fold leaves bytes outside every TTL field alone. -/
theorem foldl_writeTTL_getD (p : List Nat) (s i d : Nat) (os acc : List Nat)
    (h : ∀ o ∈ os, i < o ∨ o + 4 ≤ i) :
    (os.foldl (fun a o => writeTTLAt a o (readTTLAt p o - s)) acc).getD i d = acc.getD i d := by
  induction os generalizing acc with
  | nil => rfl
  | cons o os ih =>
    simp only [List.foldl_cons]
    rw [ih _ (fun o' ho' => h o' (List.mem_cons_of_mem _ ho')),
      getD_writeTTLAt acc o _ i d (h o (List.mem_cons_self _ _))]

/-- Aging preserves the packet length. -/
theorem ageDNSPacket_length (p : List Nat) (s : Nat) : (ageDNSPacket p s).length = p.length :=
  foldl_writeTTL_length p s (ttlOffsets p) p

/-- Aging only rewrites bytes inside TTL fields. -/
theorem ageDNSPacket_getD (p : List Nat) (s i d : Nat)
    (h : ∀ o ∈ ttlOffsets p, i < o ∨ o + 4 ≤ i) :
    (ageDNSPacket p s).getD i d = p.getD i d :=
  foldl_writeTTL_getD p s i d (ttlOffsets p) p h

/-- Skipping a name strictly advances the position. -/
theorem skipName_gt (p : List Nat) (fuel pos q : Nat) (h : skipName p pos fuel = some q) :
    pos < q := by
  induction fuel generalizing pos with
  | zero => exact absurd h (by simp [skipName])
  | succ fuel ih =>
    unfold skipName at h
    cases hb : p[pos]? with
    | none => simp only [hb] at h; exact Option.noConfusion h
    | some b =>
      simp only [hb] at h
      by_cases h0 : b = 0
      · rw [if_pos h0] at h; injection h with h; omega
      · rw [if_neg h0] at h
        by_cases h192 : 192 ≤ b
        · rw [if_pos h192] at h; injection h with h; omega
        · rw [if_neg h192] at h; have := ih _ h; omega

/-- Skipping questions never moves the position backwards. -/
theorem skipQuestions_le (p : List Nat) (n pos q : Nat) (h : skipQuestions p pos n = some q) :
    pos ≤ q := by
  induction n generalizing pos with
  | zero => unfold skipQuestions at h; injection h with h; omega
  | succ n ih =>
    unfold skipQuestions at h
    cases hs : skipName p pos (p.length + 1) with
    | none => simp only [hs] at h; exact Option.noConfusion h
    | some q' =>
      simp only [hs] at h
      have h1 := skipName_gt p _ pos q' hs
      by_cases h4 : q' + 4 ≤ p.length
      · rw [if_pos h4] at h
        have := ih _ h
        omega
      · rw [if_neg h4] at h; exact Option.noConfusion h

/-- Every TTL offset produced by the record walk lies at or past the
start position. -/
theorem rrTTLWalk_ge (p : List Nat) (b : Bool) (n pos : Nat) (os : List Nat)
    (h : rrTTLWalk p b pos n = some os) : ∀ o ∈ os, pos ≤ o := by
  induction n generalizing pos os with
  | zero =>
    unfold rrTTLWalk at h
    injection h with h
    subst h
    intro o ho
    exact absurd ho (List.not_mem_nil o)
  | succ n ih =>
    unfold rrTTLWalk at h
    cases hs : skipName p pos (p.length + 1) with
    | none => simp only [hs] at h; exact Option.noConfusion h
    | some q =>
      simp only [hs] at h
      have hq := skipName_gt p _ pos q hs
      cases ht : readU16 p q with
      | none => simp only [ht] at h; exact Option.noConfusion h
      | some ty =>
        cases hr : readU16 p (q + 8) with
        | none => simp only [ht, hr] at h; exact Option.noConfusion h
        | some rdlen =>
          simp only [ht, hr] at h
          by_cases hfit : q + 10 + rdlen ≤ p.length
          · rw [if_pos hfit] at h
            cases hrec : rrTTLWalk p b (q + 10 + rdlen) n with
            | none => simp only [hrec] at h; exact Option.noConfusion h
            | some rest =>
              simp only [hrec] at h
              have hrest := ih _ _ hrec
              by_cases hskip : b = true ∧ ty = 41
              · rw [if_pos hskip] at h
                injection h with h
                subst h
                intro o ho
                have := hrest o ho
                omega
              · rw [if_neg hskip] at h
                injection h with h
                subst h
                intro o ho
                rcases List.mem_cons.mp ho with rfl | ho
                · omega
                · have := hrest o ho
                  omega
          · rw [if_neg hfit] at h; exact Option.noConfusion h

/-- Every TTL offset of a packet lies past the 12-byte header. -/
theorem ttlOffsets_ge (p : List Nat) : ∀ o ∈ ttlOffsets p, 12 ≤ o := by
  unfold ttlOffsets ttlWalk
  by_cases h12 : p.length < 12
  · rw [if_pos h12]
    intro o ho
    exact absurd ho (List.not_mem_nil o)
  · rw [if_neg h12]
    cases hs : skipQuestions p 12 (p.getD 4 0 * 256 + p.getD 5 0) with
    | none =>
      simp only [hs, Option.getD_none]
      intro o ho
      exact absurd ho (List.not_mem_nil o)
    | some pos =>
      simp only [hs]
      have hpos := skipQuestions_le p _ 12 pos hs
      cases hw : rrTTLWalk p true pos
          ((p.getD 6 0 * 256 + p.getD 7 0) + (p.getD 8 0 * 256 + p.getD 9 0)
            + (p.getD 10 0 * 256 + p.getD 11 0)) with
      | none =>
        simp only [hw, Option.getD_none]
        intro o ho
        exact absurd ho (List.not_mem_nil o)
      | some os =>
        simp only [hw, Option.getD_some]
        intro o ho
        have := rrTTLWalk_ge p true _ pos os hw o ho
        omega

/-- Reading inside a `drop`/`take` window reads the underlying list. -/
theorem getD_drop_take (l : List Nat) (a b k d : Nat) (hk : k < b) :
    ((l.drop a).take b).getD k d = l.getD (a + k) d := by
  rw [List.getD_eq_getElem?_getD, List.getD_eq_getElem?_getD, List.getElem?_take, if_pos hk,
    List.getElem?_drop]

/-- The spliced buffer has the payload's length. -/
theorem spliceResponse_length (queryId : Nat) (response qname : List Nat)
    (hwf : 12 + qname.length ≤ response.length) :
    (spliceResponse queryId response response.length qname).length = response.length := by
  simp only [spliceResponse, qidBytes, List.length_append, List.length_take, List.length_drop,
    List.length_cons, List.length_nil]
  omega

/-- Byte 0 of the splice is the low byte of the caller's id. -/
theorem spliceResponse_getD_zero (queryId : Nat) (response qname : List Nat) (d : Nat) :
    (spliceResponse queryId response response.length qname).getD 0 d = queryId % 256 := by
  simp [spliceResponse, qidBytes]

/-- Byte 1 of the splice is the high byte of the caller's id. -/
theorem spliceResponse_getD_one (queryId : Nat) (response qname : List Nat) (d : Nat) :
    (spliceResponse queryId response response.length qname).getD 1 d = queryId / 256 % 256 := by
  simp [spliceResponse, qidBytes]

/-- Header bytes 2–11 of the splice come from the payload. -/
theorem spliceResponse_getD_header (queryId : Nat) (response qname : List Nat) (i d : Nat)
    (hwf : 12 ≤ response.length) (h2 : 2 ≤ i) (h12 : i < 12) :
    (spliceResponse queryId response response.length qname).getD i d = response.getD i d := by
  obtain ⟨k, rfl⟩ : ∃ k, i = k + 2 := ⟨i - 2, by omega⟩
  simp only [spliceResponse, qidBytes, List.cons_append, List.nil_append, List.append_assoc,
    List.getD_cons_succ]
  rw [List.getD_append _ _ _ _ (by
    simp only [List.length_take, List.length_drop]
    omega)]
  rw [getD_drop_take response 2 10 k d (by omega)]
  congr 1
  omega

/-- The question-name window of the splice is the caller's qname. -/
theorem spliceResponse_getD_qname (queryId : Nat) (response qname : List Nat) (j d : Nat)
    (hwf : 12 ≤ response.length) (hj : j < qname.length) :
    (spliceResponse queryId response response.length qname).getD (12 + j) d = qname.getD j d := by
  obtain ⟨k, hk⟩ : ∃ k, 12 + j = k + 2 := ⟨10 + j, by omega⟩
  rw [hk]
  simp only [spliceResponse, qidBytes, List.cons_append, List.nil_append, List.append_assoc,
    List.getD_cons_succ]
  have hA : ((response.drop 2).take 10).length = 10 := by
    simp only [List.length_take, List.length_drop]
    omega
  rw [List.getD_append_right _ _ _ _ (by omega : ((response.drop 2).take 10).length ≤ k)]
  rw [hA]
  rw [List.getD_append _ _ _ _ (by omega : k - 10 < qname.length)]
  congr 1
  omega

/-- The bytes after the question window come from the payload. -/
theorem spliceResponse_getD_tail (queryId : Nat) (response qname : List Nat) (i d : Nat)
    (hwf : 12 + qname.length ≤ response.length)
    (hi : 12 + qname.length ≤ i) (hilen : i < response.length) :
    (spliceResponse queryId response response.length qname).getD i d = response.getD i d := by
  obtain ⟨k, rfl⟩ : ∃ k, i = k + 2 := ⟨i - 2, by omega⟩
  simp only [spliceResponse, qidBytes, List.cons_append, List.nil_append, List.append_assoc,
    List.getD_cons_succ]
  have hA : ((response.drop 2).take 10).length = 10 := by
    simp only [List.length_take, List.length_drop]
    omega
  rw [List.getD_append_right _ _ _ _ (by omega : ((response.drop 2).take 10).length ≤ k)]
  rw [hA]
  rw [List.getD_append_right _ _ _ _ (by omega : qname.length ≤ k - 10)]
  rw [getD_drop_take response (12 + qname.length) (response.length - (12 + qname.length))
    (k - 10 - qname.length) d (by omega)]
  congr 1
  omega

/-- `insert` never changes the `dontAge` configuration flag. -/
theorem insert_dontAge (c : PacketCache) (key : Nat) (qname : List Nat) (qtype qclass : Nat)
    (response : List Nat) (tcp : Bool) (rcode : Nat) (tft : Option Nat) (now : Int) :
    (insert c key qname qtype qclass response tcp rcode tft now).d_dontAge = c.d_dontAge := by
  unfold insert insertStore
  rcases tft with _ | t <;> simp only [] <;> split_ifs <;> rfl

/-- C2 (amended): after an `insert` that stores its entry, a `get` with
the same query before the validity deadline and a large enough buffer
returns a hit whose output is the stored response with the caller's
transaction id spliced into bytes 0–1, the query's qname bytes restored
in the question window, TTL fields aged by the entry's age
(now − added), and every other byte identical to the inserted
response — provided the stored response is at least as long as header +
qname (it contains its question section). -/
theorem C2_insert_get_roundtrip (c0 : PacketCache) (key : Nat) (qnameIns : List Nat)
    (qtypeIns qclassIns : Nat) (response : List Nat) (tcpIns : Bool) (rcode : Nat)
    (tft : Option Nat) (tIns : Int) (dq : DNSQuestion) (consumed queryId bufCap : Nat)
    (now : Int) (allowExpired : Nat) (v : CacheValue)
    (hkey : getKey dq.qname consumed dq.packet dq.tcp = some key)
    (hstored : shardFind (insert c0 key qnameIns qtypeIns qclassIns response tcpIns rcode tft tIns)
      key = some v)
    (hval : v.value = response) (hlen : v.len = response.length) (hadded : v.added = tIns)
    (hmatch : cachedValueMatches v dq.qname dq.qtype dq.qclass dq.tcp = true)
    (hfresh : now ≤ v.validity) (hbuf : v.len ≤ bufCap) (h12 : 12 < v.len)
    (hwf : 12 + dq.qname.length ≤ v.len)
    (hdont : c0.d_dontAge = false) :
    (get (insert c0 key qnameIns qtypeIns qclassIns response tcpIns rcode tft tIns) dq consumed
        queryId bufCap now allowExpired false =
      some ({ insert c0 key qnameIns qtypeIns qclassIns response tcpIns rcode tft tIns with
              d_hits := (insert c0 key qnameIns qtypeIns qclassIns response tcpIns rcode tft
                tIns).d_hits + 1 }, true,
        agedRoundtripOutput queryId response dq.qname (now - tIns), response.length))
    ∧ (agedRoundtripOutput queryId response dq.qname (now - tIns)).length = response.length
    ∧ (agedRoundtripOutput queryId response dq.qname (now - tIns)).getD 0 0 = queryId % 256
    ∧ (agedRoundtripOutput queryId response dq.qname (now - tIns)).getD 1 0
        = queryId / 256 % 256
    ∧ (∀ j, j < dq.qname.length →
        (∀ o ∈ ttlOffsets (spliceResponse queryId response response.length dq.qname),
          12 + j < o ∨ o + 4 ≤ 12 + j) →
        (agedRoundtripOutput queryId response dq.qname (now - tIns)).getD (12 + j) 0
          = dq.qname.getD j 0)
    ∧ (∀ i, 2 ≤ i → i < response.length → (i < 12 ∨ 12 + dq.qname.length ≤ i) →
        (∀ o ∈ ttlOffsets (spliceResponse queryId response response.length dq.qname),
          i < o ∨ o + 4 ≤ i) →
        (agedRoundtripOutput queryId response dq.qname (now - tIns)).getD i 0
          = response.getD i 0) := by
  have hwfr : 12 + dq.qname.length ≤ response.length := hlen ▸ hwf
  refine ⟨?_, ?_, ?_, ?_, ?_, ?_⟩
  · have hc1dont : (insert c0 key qnameIns qtypeIns qclassIns response tcpIns rcode tft
        tIns).d_dontAge = false := by
      rw [insert_dontAge]
      exact hdont
    rw [get_eq_of_found _ dq consumed queryId bufCap now allowExpired false key v hkey hstored,
      if_neg (not_lt.mpr hfresh),
      getHit_main _ dq.qname dq.qtype dq.qclass dq.tcp queryId bufCap now false false v hbuf h12
        hmatch hwf,
      if_pos ⟨hc1dont, rfl⟩, if_pos rfl, hval, hlen, hadded]
    rfl
  · unfold agedRoundtripOutput
    rw [ageDNSPacket_length, spliceResponse_length queryId response dq.qname hwfr]
  · unfold agedRoundtripOutput
    rw [ageDNSPacket_getD _ _ 0 0 (fun o ho => Or.inl (by have := ttlOffsets_ge _ o ho; omega)),
      spliceResponse_getD_zero]
  · unfold agedRoundtripOutput
    rw [ageDNSPacket_getD _ _ 1 0 (fun o ho => Or.inl (by have := ttlOffsets_ge _ o ho; omega)),
      spliceResponse_getD_one]
  · intro j hj hsafe
    unfold agedRoundtripOutput
    rw [ageDNSPacket_getD _ _ (12 + j) 0 hsafe,
      spliceResponse_getD_qname queryId response dq.qname j 0 (by omega) hj]
  · intro i h2 hilen hout hsafe
    unfold agedRoundtripOutput
    rw [ageDNSPacket_getD _ _ i 0 hsafe]
    rcases hout with hout | hout
    · exact spliceResponse_getD_header queryId response dq.qname i 0 (by omega) h2 hout
    · exact spliceResponse_getD_tail queryId response dq.qname i 0 hwfr hout hilen

/-- C2 counterexample: an insert of a 13-byte SERVFAIL response (with a
temp-failure TTL override) completes and stores its entry, yet a `get`
with the same query, well before the validity deadline and with a large
buffer, returns false — the payload is longer than a header but shorter
than header + qname, so the claim fails without the question-section
proviso. -/
theorem C2_counterexample_short_response :
    shardFind (insert (oneShardCache []) exKey exQname 1 1 (List.replicate 13 2) false 2
        (some 30) 0) exKey
      = some (mkCacheValue exQname 1 1 (List.replicate 13 2) false 0 30)
    ∧ (get (insert (oneShardCache []) exKey exQname 1 1 (List.replicate 13 2) false 2 (some 30) 0)
        exDq 0 7 512 10 0 false).map (fun r => r.2.1) = some false := by
  decide

/-- C2 witness: a stored well-formed response is returned as a hit with
the aged, spliced output. -/
theorem C2_witness :
    get (insert (oneShardCache []) exKey exQname 1 1 exRespA false 2 (some 30) 0) exDq 0 4660 512
        10 0 false =
      some ({ insert (oneShardCache []) exKey exQname 1 1 exRespA false 2 (some 30) 0 with
              d_hits := (insert (oneShardCache []) exKey exQname 1 1 exRespA false 2 (some 30)
                0).d_hits + 1 },
        true, agedRoundtripOutput 4660 exRespA exDq.qname ((10 : Int) - 0), exRespA.length) :=
  (C2_insert_get_roundtrip (oneShardCache []) exKey exQname 1 1 exRespA false 2 (some 30) 0
    exDq 0 4660 512 10 0 (mkCacheValue exQname 1 1 exRespA false 0 30)
    (by decide) (by decide) (by decide) (by decide) (by decide) (by decide) (by decide)
    (by decide) (by decide) (by decide) (by decide)).1

end PdnsCache

namespace PdnsCache

theorem purgeShardMap_eq (now : Int) (l : List (Nat × CacheValue)) (n : Nat) :
    (purgeShardMap now l n).1.length + n = l.length + (purgeShardMap now l n).2
    ∧ (purgeShardMap now l n).2 ≤ n := by
  induction l generalizing n with
  | nil =>
    cases n with
    | zero => exact ⟨rfl, le_refl 0⟩
    | succ n => exact ⟨rfl, le_refl _⟩
  | cons kv rest ih =>
    obtain ⟨k, v⟩ := kv
    cases n with
    | zero => exact ⟨rfl, le_refl 0⟩
    | succ n =>
      unfold purgeShardMap
      by_cases hv : v.validity < now
      · rw [if_pos hv]
        obtain ⟨h1, h2⟩ := ih n
        refine ⟨?_, by omega⟩
        simp only [List.length_cons]
        omega
      · rw [if_neg hv]
        obtain ⟨h1, h2⟩ := ih (n + 1)
        refine ⟨?_, by omega⟩
        simp only [List.length_cons]
        omega

theorem purgeShardMap_preserve (now : Int) (l : List (Nat × CacheValue)) (n k : Nat)
    (v : CacheValue) (hv : now ≤ v.validity) :
    (k, v) ∈ l → (k, v) ∈ (purgeShardMap now l n).1 := by
  induction l generalizing n with
  | nil => intro h; exact absurd h (List.not_mem_nil _)
  | cons kv rest ih =>
    obtain ⟨k', v'⟩ := kv
    intro h
    cases n with
    | zero => exact h
    | succ n =>
      unfold purgeShardMap
      by_cases hv' : v'.validity < now
      · rw [if_pos hv']
        rcases List.mem_cons.mp h with heq | hmem
        · injection heq with h1 h2
          subst h2
          exact absurd hv (not_le.mpr hv')
        · exact ih n hmem
      · rw [if_neg hv']
        rcases List.mem_cons.mp h with heq | hmem
        · rw [heq]
          exact List.mem_cons_self _ _
        · exact List.mem_cons_of_mem _ (ih (n + 1) hmem)

theorem purgeStep_shards (now : Int) (c : PacketCache) (B : Nat) :
    (purgeStep now c B).1.d_shards
      = c.d_shards.set (c.d_expungeIndex % c.d_shardCount)
          { d_map := (purgeShardMap now
              ((c.d_shards.getD (c.d_expungeIndex % c.d_shardCount) ⟨[], 0⟩).d_map) B).1,
            d_entriesCount :=
              (c.d_shards.getD (c.d_expungeIndex % c.d_shardCount) ⟨[], 0⟩).d_entriesCount
                - (B - (purgeShardMap now
                    ((c.d_shards.getD (c.d_expungeIndex % c.d_shardCount) ⟨[], 0⟩).d_map) B).2) } :=
  rfl

theorem purgeStep_snd (now : Int) (c : PacketCache) (B : Nat) :
    (purgeStep now c B).2
      = (purgeShardMap now
          ((c.d_shards.getD (c.d_expungeIndex % c.d_shardCount) ⟨[], 0⟩).d_map) B).2 :=
  rfl

theorem getD_set_shard (l : List CacheShard) (j : Nat) (x : CacheShard) (i : Nat) :
    (l.set j x).getD i ⟨[], 0⟩
      = if i = j ∧ j < l.length then x else l.getD i ⟨[], 0⟩ := by
  by_cases hij : i = j
  · subst hij
    by_cases hlt : i < l.length
    · rw [if_pos ⟨rfl, hlt⟩, List.getD_eq_getElem?_getD, List.getElem?_set_eq_of_lt _ hlt]
      rfl
    · rw [if_neg (fun hc => hlt hc.2), List.set_eq_of_length_le (by omega)]
  · rw [if_neg (fun hc => hij hc.1), List.getD_eq_getElem?_getD,
      List.getElem?_set_ne (fun hc => hij hc.symm), ← List.getD_eq_getElem?_getD]

theorem shardMapLens_set_le (l : List CacheShard) (j : Nat) (x : CacheShard) :
    shardMapLens l ≤ shardMapLens (l.set j x)
      + ((l.getD j ⟨[], 0⟩).d_map.length - x.d_map.length) := by
  induction l generalizing j with
  | nil => simp [shardMapLens]
  | cons sh rest ih =>
    cases j with
    | zero =>
      simp only [List.set, shardMapLens, List.map_cons, List.sum_cons, List.getD_cons_zero]
      omega
    | succ j =>
      have := ih j
      simp only [List.set, shardMapLens, List.map_cons, List.sum_cons, List.getD_cons_succ]
      simp only [shardMapLens] at this
      omega

end PdnsCache

namespace PdnsCache

theorem purgeStep_preserve (now : Int) (c : PacketCache) (B i k : Nat) (v : CacheValue)
    (hv : now ≤ v.validity)
    (h : (k, v) ∈ ((c.d_shards.getD i ⟨[], 0⟩).d_map)) :
    (k, v) ∈ (((purgeStep now c B).1.d_shards.getD i ⟨[], 0⟩).d_map) := by
  rw [purgeStep_shards, getD_set_shard]
  by_cases hc : i = c.d_expungeIndex % c.d_shardCount
      ∧ c.d_expungeIndex % c.d_shardCount < c.d_shards.length
  · rw [if_pos hc]
    obtain ⟨hi, _⟩ := hc
    subst hi
    exact purgeShardMap_preserve now _ B k v hv h
  · rw [if_neg hc]
    exact h

theorem purgeStep_budget (now : Int) (c : PacketCache) (B : Nat) :
    totalMapLen c ≤ totalMapLen (purgeStep now c B).1 + (B - (purgeStep now c B).2)
    ∧ (purgeStep now c B).2 ≤ B := by
  have heq := purgeShardMap_eq now
    ((c.d_shards.getD (c.d_expungeIndex % c.d_shardCount) ⟨[], 0⟩).d_map) B
  have hle := shardMapLens_set_le c.d_shards (c.d_expungeIndex % c.d_shardCount)
    { d_map := (purgeShardMap now
        ((c.d_shards.getD (c.d_expungeIndex % c.d_shardCount) ⟨[], 0⟩).d_map) B).1,
      d_entriesCount :=
        (c.d_shards.getD (c.d_expungeIndex % c.d_shardCount) ⟨[], 0⟩).d_entriesCount
          - (B - (purgeShardMap now
              ((c.d_shards.getD (c.d_expungeIndex % c.d_shardCount) ⟨[], 0⟩).d_map) B).2) }
  constructor
  · unfold totalMapLen
    rw [purgeStep_shards, purgeStep_snd]
    simp only [] at hle ⊢
    omega
  · rw [purgeStep_snd]
    exact heq.2

theorem purgeGo_preserve (now : Int) (fuel : Nat) (c : PacketCache) (B i k : Nat) (v : CacheValue)
    (hv : now ≤ v.validity)
    (h : (k, v) ∈ ((c.d_shards.getD i ⟨[], 0⟩).d_map)) :
    (k, v) ∈ (((purgeGo now fuel c B).d_shards.getD i ⟨[], 0⟩).d_map) := by
  induction fuel generalizing c B with
  | zero => exact h
  | succ fuel ih =>
    unfold purgeGo
    by_cases hc : 0 < (purgeStep now c B).2 ∧ 0 < fuel
    · rw [if_pos hc]
      exact ih _ _ (purgeStep_preserve now c B i k v hv h)
    · rw [if_neg hc]
      exact purgeStep_preserve now c B i k v hv h

theorem purgeGo_budget (now : Int) (fuel : Nat) (c : PacketCache) (B : Nat) :
    totalMapLen c ≤ totalMapLen (purgeGo now fuel c B) + B := by
  induction fuel generalizing c B with
  | zero => unfold purgeGo; omega
  | succ fuel ih =>
    unfold purgeGo
    obtain ⟨hs1, hs2⟩ := purgeStep_budget now c B
    by_cases hc : 0 < (purgeStep now c B).2 ∧ 0 < fuel
    · rw [if_pos hc]
      have := ih (purgeStep now c B).1 (purgeStep now c B).2
      omega
    · rw [if_neg hc]
      omega

/-- C4: `purgeExpired(upTo)` removes nothing when `upTo` is at least the
current size; otherwise it never deletes an entry whose validity is at
or past `now` (only expired entries go), and it deletes at most
`size − upTo` entries. -/
theorem C4_purge_only_expired (c : PacketCache) (upTo : Nat) (now : Int) :
    (getSize c ≤ upTo → purgeExpired c upTo now = c)
    ∧ (∀ i k v, (k, v) ∈ ((c.d_shards.getD i ⟨[], 0⟩).d_map) → now ≤ v.validity →
        (k, v) ∈ (((purgeExpired c upTo now).d_shards.getD i ⟨[], 0⟩).d_map))
    ∧ totalMapLen c ≤ totalMapLen (purgeExpired c upTo now) + (getSize c - upTo) := by
  refine ⟨?_, ?_, ?_⟩
  · intro h
    unfold purgeExpired
    rw [if_pos h]
  · intro i k v h hv
    unfold purgeExpired
    by_cases hle : getSize c ≤ upTo
    · rw [if_pos hle]
      exact h
    · rw [if_neg hle]
      exact purgeGo_preserve now _ c _ i k v hv h
  · by_cases hle : getSize c ≤ upTo
    · unfold purgeExpired
      rw [if_pos hle]
      omega
    · unfold purgeExpired
      rw [if_neg hle]
      exact purgeGo_budget now _ c _

end PdnsCache

namespace PdnsCache

theorem expungeShards_removed_le (S B : Nat) (l : List CacheShard) (i rm : Nat) (h : rm ≤ B) :
    (expungeShards S B i rm l).2 ≤ B := by
  induction l generalizing i rm with
  | nil => exact h
  | cons sh rest ih =>
    unfold expungeShards
    by_cases hc : (B - rm) / (S - i) ≤ sh.d_map.length
    · rw [if_pos hc]
      exact ih (i + 1) _ (by have := Nat.div_le_self (B - rm) (S - i); omega)
    · rw [if_neg hc]
      exact ih (i + 1) _ (by have := Nat.div_le_self (B - rm) (S - i); omega)

theorem expungeShards_lens (S B : Nat) (l : List CacheShard) (i rm : Nat) :
    shardMapLens (expungeShards S B i rm l).1 + (expungeShards S B i rm l).2
      = shardMapLens l + rm := by
  induction l generalizing i rm with
  | nil => rfl
  | cons sh rest ih =>
    unfold expungeShards
    by_cases hc : (B - rm) / (S - i) ≤ sh.d_map.length
    · rw [if_pos hc]
      have := ih (i + 1) (rm + (B - rm) / (S - i))
      simp only [shardMapLens, List.map_cons, List.sum_cons, List.length_drop] at this ⊢
      omega
    · rw [if_neg hc]
      have := ih (i + 1) (rm + sh.d_map.length)
      simp only [shardMapLens, List.map_cons, List.sum_cons, List.length_nil] at this ⊢
      omega

theorem expungeShards_sync (S B : Nat) (l : List CacheShard) (i rm : Nat)
    (h : ∀ sh ∈ l, sh.d_entriesCount = sh.d_map.length) :
    ∀ sh ∈ (expungeShards S B i rm l).1, sh.d_entriesCount = sh.d_map.length := by
  induction l generalizing i rm with
  | nil => intro sh hsh; exact absurd hsh (List.not_mem_nil _)
  | cons sh0 rest ih =>
    unfold expungeShards
    by_cases hc : (B - rm) / (S - i) ≤ sh0.d_map.length
    · rw [if_pos hc]
      intro sh hsh
      rcases List.mem_cons.mp hsh with rfl | hsh
      · simp only [List.length_drop]
        rw [h sh0 (List.mem_cons_self _ _)]
      · exact ih _ _ (fun s hs => h s (List.mem_cons_of_mem _ hs)) sh hsh
    · rw [if_neg hc]
      intro sh hsh
      rcases List.mem_cons.mp hsh with rfl | hsh
      · rfl
      · exact ih _ _ (fun s hs => h s (List.mem_cons_of_mem _ hs)) sh hsh

theorem expungeShards_exact (S B : Nat) (l : List CacheShard) (i rm : Nat)
    (hne : l ≠ []) (hlen : l.length = S - i) (hrm : rm ≤ B) (hi : i < S)
    (hmeets : expungeMeets S B i rm l = true) :
    (expungeShards S B i rm l).2 = B := by
  induction l generalizing i rm with
  | nil => exact absurd rfl hne
  | cons sh rest ih =>
    unfold expungeShards
    unfold expungeMeets at hmeets
    by_cases hc : (B - rm) / (S - i) ≤ sh.d_map.length
    · rw [if_pos hc]
      rw [if_pos hc] at hmeets
      simp only []
      cases rest with
      | nil =>
        have h1 : S - i = 1 := by
          simp only [List.length_cons, List.length_nil] at hlen
          omega
        rw [h1]
        unfold expungeShards
        simp only [Nat.div_one]
        omega
      | cons sh2 rest2 =>
        have hlen2 : (sh2 :: rest2).length = S - (i + 1) := by
          simp only [List.length_cons] at hlen ⊢
          omega
        have hi2 : i + 1 < S := by
          simp only [List.length_cons] at hlen
          omega
        exact ih (i + 1) _ (List.cons_ne_nil _ _) hlen2
          (by have := Nat.div_le_self (B - rm) (S - i); omega) hi2 hmeets
    · rw [if_neg hc] at hmeets
      exact absurd hmeets (by simp)

theorem sum_counts_eq (l : List CacheShard)
    (h : ∀ sh ∈ l, sh.d_entriesCount = sh.d_map.length) :
    (l.map (fun sh => sh.d_entriesCount)).sum = (l.map (fun sh => sh.d_map.length)).sum := by
  induction l with
  | nil => rfl
  | cons sh rest ih =>
    simp only [List.map_cons, List.sum_cons]
    rw [h sh (List.mem_cons_self _ _), ih (fun s hs => h s (List.mem_cons_of_mem _ hs))]

/-- C5 (amended): `expunge(upTo)` with `upTo` below the current size
spreads the budget over shards in index order (target
`remaining / (S − i)`, under-sized shards cleared with the shortfall
rolling forward), never removes more than `size − upTo` entries, and
when every shard holds at least its computed target the final size is
exactly `upTo`. -/
theorem C5_expunge_budget_split (c : PacketCache) (upTo : Nat)
    (hS : c.d_shards.length = c.d_shardCount) (hS0 : 0 < c.d_shardCount)
    (hsync : ∀ sh ∈ c.d_shards, sh.d_entriesCount = sh.d_map.length) :
    (upTo ≤ getSize c → upTo ≤ getSize (expunge c upTo))
    ∧ (upTo < getSize c →
        expungeMeets c.d_shardCount (getSize c - upTo) 0 0 c.d_shards = true →
        getSize (expunge c upTo) = upTo) := by
  have hsz : getSize c = shardMapLens c.d_shards := sum_counts_eq c.d_shards hsync
  constructor
  · intro hup
    by_cases hle : getSize c ≤ upTo
    · unfold expunge
      rw [if_pos hle]
      omega
    · unfold expunge
      rw [if_neg hle]
      have hsz2 : getSize { c with
          d_shards := (expungeShards c.d_shardCount (getSize c - upTo) 0 0 c.d_shards).1 }
          = shardMapLens (expungeShards c.d_shardCount (getSize c - upTo) 0 0 c.d_shards).1 :=
        sum_counts_eq _ (expungeShards_sync _ _ _ _ _ hsync)
      rw [hsz2]
      have h1 := expungeShards_lens c.d_shardCount (getSize c - upTo) c.d_shards 0 0
      have h2 := expungeShards_removed_le c.d_shardCount (getSize c - upTo) c.d_shards 0 0
        (Nat.zero_le _)
      omega
  · intro hlt hmeets
    unfold expunge
    rw [if_neg (by omega)]
    have hsz2 : getSize { c with
        d_shards := (expungeShards c.d_shardCount (getSize c - upTo) 0 0 c.d_shards).1 }
        = shardMapLens (expungeShards c.d_shardCount (getSize c - upTo) 0 0 c.d_shards).1 :=
      sum_counts_eq _ (expungeShards_sync _ _ _ _ _ hsync)
    rw [hsz2]
    have h1 := expungeShards_lens c.d_shardCount (getSize c - upTo) c.d_shards 0 0
    have h3 := expungeShards_exact c.d_shardCount (getSize c - upTo) c.d_shards 0 0
      (by intro hnil; rw [hnil] at hS; simp only [List.length_nil] at hS; omega)
      (by omega) (Nat.zero_le _) (by omega) hmeets
    omega

end PdnsCache

namespace PdnsCache

/-- C5 counterexample: with 10 entries all in shard 0 of a 2-shard
cache, `expunge 4` removes only 3 (shard 0 target `6/2 = 3`; shard 1 is
empty, its rolled-forward target of 3 cannot be met), leaving size 7 —
more than `upTo = 4`, refuting the unconditional "size ≤ upTo". -/
theorem C5_counterexample_skewed_shards :
    getSize cSkew = 10
    ∧ getSize (expunge cSkew 4) = 7
    ∧ ¬ getSize (expunge cSkew 4) ≤ 4 := by
  decide

/-- C5 witness: with even shard occupancy the final size is exactly 4. -/
theorem C5_witness : getSize (expunge cEven 4) = 4 :=
  (C5_expunge_budget_split cEven 4 (by decide) (by decide) (by decide)).2 (by decide) (by decide)

end PdnsCache

namespace PdnsCache

theorem insertLocked_wf (M S : Nat) (shard : CacheShard) (key : Nat) (qname : List Nat)
    (qtype qclass : Nat) (tcp : Bool) (newValue : CacheValue) (now newValidity : Int)
    (hsync : shard.d_entriesCount = shard.d_map.length) (hcap : shard.d_map.length ≤ M / S) :
    (insertLocked M S shard key qname qtype qclass tcp newValue now newValidity).1.d_entriesCount
      = (insertLocked M S shard key qname qtype qclass tcp newValue now
          newValidity).1.d_map.length
    ∧ (insertLocked M S shard key qname qtype qclass tcp newValue now
        newValidity).1.d_map.length ≤ M / S := by
  unfold insertLocked
  by_cases h1 : M / S ≤ shard.d_map.length
  · rw [if_pos h1]
    exact ⟨hsync, hcap⟩
  · rw [if_neg h1]
    cases hf : shard.d_map.lookup key with
    | none =>
      simp only [hf, List.length_append, List.length_cons, List.length_nil]
      constructor
      · omega
      · omega
    | some old =>
      simp only [hf]
      split_ifs with h2 h3
      · exact ⟨hsync, hcap⟩
      · exact ⟨hsync, hcap⟩
      · constructor
        · simp only [replaceEntry, List.length_map]
          exact hsync
        · simp only [replaceEntry, List.length_map]
          exact hcap

theorem insertStore_wf (c : PacketCache) (key : Nat) (qname : List Nat) (qtype qclass : Nat)
    (response : List Nat) (tcp : Bool) (minTTL : Nat) (now : Int) (h : CacheWF c) :
    CacheWF (insertStore c key qname qtype qclass response tcp minTTL now) := by
  obtain ⟨hlen, hinv⟩ := h
  unfold insertStore
  by_cases h1 : c.d_maxEntries / c.d_shardCount
      ≤ (c.d_shards.getD (getShardIndex c key) ⟨[], 0⟩).d_entriesCount
  · rw [if_pos h1]
    exact ⟨hlen, hinv⟩
  · rw [if_neg h1]
    constructor
    · simp only [List.length_set]
      exact hlen
    · intro sh hsh
      rcases List.mem_or_eq_of_mem_set hsh with hsh | rfl
      · exact hinv sh hsh
      · by_cases hix : getShardIndex c key < c.d_shards.length
        · have hmem : c.d_shards.getD (getShardIndex c key) ⟨[], 0⟩ ∈ c.d_shards := by
            rw [List.getD_eq_getElem?_getD, List.getElem?_eq_getElem hix]
            exact List.getElem_mem hix
          obtain ⟨hs1, hs2⟩ := hinv _ hmem
          exact insertLocked_wf c.d_maxEntries c.d_shardCount _ key qname qtype qclass tcp
            (mkCacheValue qname qtype qclass response tcp now (now + (minTTL : Int))) now
            (now + (minTTL : Int)) hs1 hs2
        · have hd : (c.d_shards.getD (getShardIndex c key) ⟨[], 0⟩) = ⟨[], 0⟩ := by
            rw [List.getD_eq_getElem?_getD, List.getElem?_eq_none (by omega)]
            rfl
          rw [hd]
          exact insertLocked_wf c.d_maxEntries c.d_shardCount ⟨[], 0⟩ key qname qtype qclass
            tcp (mkCacheValue qname qtype qclass response tcp now (now + (minTTL : Int))) now
            (now + (minTTL : Int)) rfl (Nat.zero_le _)

theorem insert_wf (c : PacketCache) (key : Nat) (qname : List Nat) (qtype qclass : Nat)
    (response : List Nat) (tcp : Bool) (rcode : Nat) (tft : Option Nat) (now : Int)
    (h : CacheWF c) :
    CacheWF (insert c key qname qtype qclass response tcp rcode tft now) := by
  rcases tft with _ | t <;>
    · unfold insert
      simp only []
      split_ifs <;>
        first
          | exact h
          | exact ⟨h.1, h.2⟩
          | exact insertStore_wf c key qname qtype qclass response tcp _ now h

theorem insert_config (c : PacketCache) (key : Nat) (qname : List Nat) (qtype qclass : Nat)
    (response : List Nat) (tcp : Bool) (rcode : Nat) (tft : Option Nat) (now : Int) :
    (insert c key qname qtype qclass response tcp rcode tft now).d_maxEntries = c.d_maxEntries
    ∧ (insert c key qname qtype qclass response tcp rcode tft now).d_shardCount
        = c.d_shardCount := by
  unfold insert insertStore
  rcases tft with _ | t <;> simp only [] <;> split_ifs <;> exact ⟨rfl, rfl⟩

theorem applyInserts_wf (reqs : List InsertReq) (c : PacketCache) (h : CacheWF c) :
    CacheWF (applyInserts c reqs)
    ∧ (applyInserts c reqs).d_maxEntries = c.d_maxEntries
    ∧ (applyInserts c reqs).d_shardCount = c.d_shardCount := by
  induction reqs generalizing c with
  | nil => exact ⟨h, rfl, rfl⟩
  | cons r rest ih =>
    have hstep := insert_wf c r.key r.qname r.qtype r.qclass r.response r.tcp r.rcode
      r.tempFailureTTL r.now h
    have hcfg := insert_config c r.key r.qname r.qtype r.qclass r.response r.tcp r.rcode
      r.tempFailureTTL r.now
    have := ih (insert c r.key r.qname r.qtype r.qclass r.response r.tcp r.rcode
      r.tempFailureTTL r.now) hstep
    simp only [applyInserts, List.foldl_cons] at this ⊢
    exact ⟨this.1, by rw [this.2.1, hcfg.1], by rw [this.2.2, hcfg.2]⟩

end PdnsCache

namespace PdnsCache

/-- C8: after any sequence of inserts into a freshly constructed cache,
every shard holds at most `⌊maxEntries/S⌋ + 1` entries (in fact at most
`⌊maxEntries/S⌋`) and `getSize` is at most `maxEntries`; over-capacity
inserts are silently refused. -/
theorem C8_capacity_bounds (maxEntries maxTTL minTTL tempFailureTTL staleTTL : Nat)
    (dontAge : Bool) (S : Nat) (defer : Bool) (reqs : List InsertReq) :
    (∀ sh ∈ (applyInserts (mkCache maxEntries maxTTL minTTL tempFailureTTL staleTTL dontAge S
        defer) reqs).d_shards, sh.d_entriesCount ≤ maxEntries / S + 1)
    ∧ getSize (applyInserts (mkCache maxEntries maxTTL minTTL tempFailureTTL staleTTL dontAge S
        defer) reqs) ≤ maxEntries := by
  have h0 : CacheWF (mkCache maxEntries maxTTL minTTL tempFailureTTL staleTTL dontAge S
      defer) := by
    constructor
    · simp [mkCache]
    · intro sh hsh
      have heq := List.eq_of_mem_replicate hsh
      rw [heq]
      exact ⟨rfl, Nat.zero_le _⟩
  obtain ⟨⟨hwl, hwb⟩, hmax, hcnt⟩ := applyInserts_wf reqs
    (mkCache maxEntries maxTTL minTTL tempFailureTTL staleTTL dontAge S defer) h0
  have hmax' : (applyInserts (mkCache maxEntries maxTTL minTTL tempFailureTTL staleTTL dontAge S
      defer) reqs).d_maxEntries = maxEntries := hmax
  have hcnt' : (applyInserts (mkCache maxEntries maxTTL minTTL tempFailureTTL staleTTL dontAge S
      defer) reqs).d_shardCount = S := hcnt
  constructor
  · intro sh hsh
    obtain ⟨h1, h2⟩ := hwb sh hsh
    rw [hmax', hcnt'] at h2
    omega
  · unfold getSize
    have hb : ∀ x ∈ ((applyInserts (mkCache maxEntries maxTTL minTTL tempFailureTTL staleTTL
        dontAge S defer) reqs).d_shards.map (fun sh => sh.d_entriesCount)),
        x ≤ maxEntries / S := by
      intro x hx
      obtain ⟨sh, hsh, rfl⟩ := List.mem_map.mp hx
      obtain ⟨h1, h2⟩ := hwb sh hsh
      rw [hmax', hcnt'] at h2
      omega
    have hsum := List.sum_le_card_nsmul _ (maxEntries / S) hb
    rw [List.length_map] at hsum
    have hlen2 : (applyInserts (mkCache maxEntries maxTTL minTTL tempFailureTTL staleTTL dontAge
        S defer) reqs).d_shards.length = S := by
      rw [hwl, hcnt']
    rw [hlen2, smul_eq_mul] at hsum
    calc ((applyInserts (mkCache maxEntries maxTTL minTTL tempFailureTTL staleTTL dontAge S
            defer) reqs).d_shards.map (fun sh => sh.d_entriesCount)).sum
        ≤ S * (maxEntries / S) := hsum
      _ = maxEntries / S * S := Nat.mul_comm _ _
      _ ≤ maxEntries := Nat.div_mul_le_self _ _

end PdnsCache
